import Mathlib

/-!
Verification of the cover2bricks color-quantization pipeline
(`backend/utils.py`, `backend/palette.py`, `backend/main.py`).

Shallow embedding conventions:
* Machine bytes are `Nat` with an explicit `% 256` where numpy performs a
  `uint8` cast (`np.array(..., dtype=np.uint8)`, `astype(np.uint8)`).
* The skimage `color.rgb2lab` conversion is an external library; the whole
  composite `v ↦ rgb2lab(v / 255)` on integer triples is abstracted as a
  function parameter `lab : RGB → Lab` with `Lab := ℚ × ℚ × ℚ` (exact
  arithmetic in place of float64).
* `np.linalg.norm` is the Euclidean norm; since `Real.sqrt` is strictly
  monotone, `argmin` and equality comparisons over norms coincide with those
  over squared norms, so distances are modelled by the squared Euclidean
  distance `dist2`, which stays in `ℚ` and is executable.
* `np.argmin` returns the first index attaining the minimum; modelled as
  the index of the first occurrence of the list minimum.
* Pillow's `Image.crop` rejects only `right < left` / `lower < upper`
  (`ValueError`) and zero-pads out-of-bounds regions; `Image.resize` is an
  external resampler abstracted as a function parameter carrying the chosen
  filter tag (the code always passes `Image.LANCZOS`).
* The palette CSV file (`colorspalette.csv`) is data, not code; the rows
  produced by `get_palette_metadata` are passed as an explicit list
  parameter `meta`.
-/

/-- An RGB triple (each component a machine byte in the real pipeline). -/
def RGB := Nat × Nat × Nat

instance : DecidableEq RGB := by unfold RGB; infer_instance

/-- A CIE-LAB triple, in exact rational arithmetic. -/
def Lab := ℚ × ℚ × ℚ

instance : DecidableEq Lab := by unfold Lab; infer_instance

/-- The `uint8` cast numpy applies: each component reduced mod 256. -/
def byteClamp (c : RGB) : RGB := (c.1 % 256, c.2.1 % 256, c.2.2 % 256)

/-- An RGB triple whose components are genuine bytes (< 256). -/
def isByteRGB (c : RGB) : Prop := c.1 < 256 ∧ c.2.1 < 256 ∧ c.2.2 < 256

instance (c : RGB) : Decidable (isByteRGB c) := by unfold isByteRGB; infer_instance

theorem byteClamp_eq_self {c : RGB} (h : isByteRGB c) : byteClamp c = c := by
  obtain ⟨c1, c2, c3⟩ := c
  obtain ⟨h1, h2, h3⟩ := h
  simp only [byteClamp]
  exact congrArg₂ Prod.mk (Nat.mod_eq_of_lt h1)
    (congrArg₂ Prod.mk (Nat.mod_eq_of_lt h2) (Nat.mod_eq_of_lt h3))

/-- Squared Euclidean distance between two LAB points (see header: argmin over
`np.linalg.norm` equals argmin over the squared norm). -/
def dist2 (a b : Lab) : ℚ :=
  (a.1 - b.1) * (a.1 - b.1) + (a.2.1 - b.2.1) * (a.2.1 - b.2.1) +
    (a.2.2 - b.2.2) * (a.2.2 - b.2.2)

theorem dist2_nonneg (a b : Lab) : 0 ≤ dist2 a b := by
  have h1 := mul_self_nonneg (a.1 - b.1)
  have h2 := mul_self_nonneg (a.2.1 - b.2.1)
  have h3 := mul_self_nonneg (a.2.2 - b.2.2)
  unfold dist2; linarith

theorem dist2_self (a : Lab) : dist2 a a = 0 := by
  unfold dist2; ring

theorem dist2_eq_zero {a b : Lab} (h : dist2 a b = 0) : a = b := by
  have h1 := mul_self_nonneg (a.1 - b.1)
  have h2 := mul_self_nonneg (a.2.1 - b.2.1)
  have h3 := mul_self_nonneg (a.2.2 - b.2.2)
  unfold dist2 at h
  have e1 : (a.1 - b.1) * (a.1 - b.1) = 0 := by linarith
  have e2 : (a.2.1 - b.2.1) * (a.2.1 - b.2.1) = 0 := by linarith
  have e3 : (a.2.2 - b.2.2) * (a.2.2 - b.2.2) = 0 := by linarith
  have g1 : a.1 = b.1 := by have := mul_self_eq_zero.mp e1; linarith
  have g2 : a.2.1 = b.2.1 := by have := mul_self_eq_zero.mp e2; linarith
  have g3 : a.2.2 = b.2.2 := by have := mul_self_eq_zero.mp e3; linarith
  obtain ⟨a1, a2, a3⟩ := a
  obtain ⟨b1, b2, b3⟩ := b
  simp_all

/-- First element view of the minimum of a rational list
(`none` on the empty list). -/
def listMin : List ℚ → Option ℚ
  | [] => none
  | x :: xs =>
    match listMin xs with
    | none => some x
    | some m => some (min x m)

/-- Index of the first occurrence of `a` in `l`
(length of `l` when `a` is absent). -/
def idxOfQ (a : ℚ) : List ℚ → Nat
  | [] => 0
  | x :: xs => if x = a then 0 else idxOfQ a xs + 1

/-- `np.argmin` on one row: index of the first occurrence of the minimum
(`none` models the `ValueError` numpy raises on an empty reduction axis). -/
def argminIdx (l : List ℚ) : Option Nat :=
  (listMin l).map fun m => idxOfQ m l

theorem listMin_isSome {l : List ℚ} (h : l ≠ []) : (listMin l).isSome := by
  cases l with
  | nil => exact absurd rfl h
  | cons x xs =>
    unfold listMin
    cases listMin xs <;> simp

theorem listMin_mem : ∀ {l : List ℚ} {m : ℚ}, listMin l = some m → m ∈ l := by
  intro l
  induction l with
  | nil => intro m h; simp [listMin] at h
  | cons x xs ih =>
    intro m h
    unfold listMin at h
    cases hx : listMin xs with
    | none => rw [hx] at h; simp at h; simp [h]
    | some m' =>
      rw [hx] at h
      simp at h
      rcases min_choice x m' with hc | hc
      · rw [hc] at h; simp [h]
      · rw [hc] at h
        subst h
        exact List.mem_cons_of_mem x (ih hx)

theorem listMin_le : ∀ {l : List ℚ} {m : ℚ}, listMin l = some m →
    ∀ y ∈ l, m ≤ y := by
  intro l
  induction l with
  | nil => intro m h; simp [listMin] at h
  | cons x xs ih =>
    intro m h y hy
    unfold listMin at h
    cases hx : listMin xs with
    | none =>
      rw [hx] at h
      simp at h
      have : xs = [] := by
        cases xs with
        | nil => rfl
        | cons a as => simp [listMin] at hx; cases hxx : listMin as <;> simp [hxx] at hx
      subst this
      rcases List.mem_singleton.mp hy with rfl
      exact le_of_eq h.symm
    | some m' =>
      rw [hx] at h
      simp at h
      subst h
      rcases List.mem_cons.mp hy with hy0 | hmem
      · rw [hy0]; exact min_le_left x m'
      · exact le_trans (min_le_right x m') (ih hx y hmem)

theorem idxOfQ_lt_length {a : ℚ} : ∀ {l : List ℚ}, a ∈ l → idxOfQ a l < l.length := by
  intro l
  induction l with
  | nil => intro h; simp at h
  | cons x xs ih =>
    intro h
    unfold idxOfQ
    by_cases hx : x = a
    · simp [hx]
    · simp only [hx, if_false, List.length_cons]
      have : a ∈ xs := by
        rcases List.mem_cons.mp h with rfl | hm
        · exact absurd rfl hx
        · exact hm
      exact Nat.succ_lt_succ (ih this)

theorem get_idxOfQ {a : ℚ} : ∀ {l : List ℚ} (h : a ∈ l)
    (hl : idxOfQ a l < l.length), l.get ⟨idxOfQ a l, hl⟩ = a := by
  intro l
  induction l with
  | nil => intro h; simp at h
  | cons x xs ih =>
    intro h hl
    by_cases hx : x = a
    · simp [idxOfQ, hx]
    · have hm : a ∈ xs := by
        rcases List.mem_cons.mp h with rfl | hm
        · exact absurd rfl hx
        · exact hm
      have hL : idxOfQ a (x :: xs) = idxOfQ a xs + 1 := by simp [idxOfQ, hx]
      have hl' : idxOfQ a xs < xs.length := idxOfQ_lt_length hm
      have := ih hm hl'
      simp only [hL, List.get_cons_succ]
      convert this using 2

theorem get_lt_idxOfQ_ne {a : ℚ} : ∀ {l : List ℚ} {k : Nat}
    (hk : k < idxOfQ a l) (hkl : k < l.length), l.get ⟨k, hkl⟩ ≠ a := by
  intro l
  induction l with
  | nil => intro k _hk hkl; simp at hkl
  | cons x xs ih =>
    intro k hk hkl
    by_cases hx : x = a
    · simp [idxOfQ, hx] at hk
    · cases k with
      | zero => simpa using hx
      | succ k' =>
        have hL : idxOfQ a (x :: xs) = idxOfQ a xs + 1 := by simp [idxOfQ, hx]
        rw [hL] at hk
        exact ih (Nat.lt_of_succ_lt_succ hk) (Nat.lt_of_succ_lt_succ hkl)

/-- A numpy `(h, w, 3)` array of RGB triples: `pix y x` is row `y`, column
`x` (only indices with `y < h`, `x < w` are meaningful). -/
structure Grid where
  h : Nat
  w : Nat
  pix : Nat → Nat → RGB

/-- A PIL image: `pix x y` is the pixel at column `x`, row `y` (only
`0 ≤ x < width`, `0 ≤ y < height` are meaningful; `Int` coordinates because
crop boxes may address out-of-bounds positions). -/
structure PILImage where
  width : Nat
  height : Nat
  pix : Int → Int → RGB

/-- Pillow resampling filters (`Image.NEAREST`, …, `Image.LANCZOS`). -/
inductive ResampleFilter
  | nearest
  | bilinear
  | bicubic
  | lanczos
deriving DecidableEq

/-- One row of `colorspalette.csv` as produced by `get_palette_metadata` in
`palette.py`: `code = int(row["value"])`, `name = row["children"]`,
`rgb = row["rgb_tuple"]` (parsed from a `#RRGGBB` hex string, so each
component is a byte). -/
structure PaletteEntryMeta where
  code : Int
  name : String
  rgb : RGB
deriving DecidableEq

/-- One element of the `counts_list` built by `map_to_palette`
(`{"index": i, "code": ..., "name": ..., "rgb": ..., "count": cnt}`). -/
structure UsageCount where
  index : Nat
  code : Int
  name : String
  rgb : RGB
  count : Nat
deriving DecidableEq

/-- `utils.pil_to_np`: `np.array(img.convert("RGB"))` — a `(h, w, 3)` array
with `arr[y][x] = img.getpixel((x, y))`. -/
def pil_to_np (img : PILImage) : Grid :=
  ⟨img.height, img.width, fun y x => img.pix (↑x) (↑y)⟩

/-- `utils.np_to_pil`: `Image.fromarray(arr.astype(np.uint8))` — the
`astype(np.uint8)` cast is the componentwise `% 256`. -/
def np_to_pil (g : Grid) : PILImage :=
  ⟨g.w, g.h, fun x y => byteClamp (g.pix y.toNat x.toNat)⟩

/-- The crop computation `Image.crop` performs on an accepted box: the new
size is `(right-left, lower-upper)` and source pixels outside the image
bounds are zero-padded (black). -/
def cropRaw (img : PILImage) (l u r b : Int) : PILImage :=
  { width := (r - l).toNat
    height := (b - u).toNat
    pix := fun x y =>
      if 0 ≤ x + l ∧ x + l < (img.width : Int) ∧ 0 ≤ y + u ∧ y + u < (img.height : Int)
      then img.pix (x + l) (y + u)
      else (0, 0, 0) }

/-- Pillow `Image.crop`: raises `ValueError` when `right < left` or
`lower < upper`; any other box (out-of-bounds or zero-sized included) is
accepted. -/
def PILImage.crop (img : PILImage) (box : Int × Int × Int × Int) :
    Except String PILImage :=
  match box with
  | (l, u, r, b) =>
    if r < l then .error "Coordinate right is less than left"
    else if b < u then .error "Coordinate lower is less than upper"
    else .ok (cropRaw img l u r b)

/-- The `if w != h:` square-normalization block of
`utils.image_to_brick_matrix`. -/
def squareStep (img1 : PILImage) : Except String PILImage :=
  if img1.width ≠ img1.height then
    let side := min img1.width img1.height
    let left := (img1.width - side) / 2
    let upper := (img1.height - side) / 2
    PILImage.crop img1 ((left : Int), (upper : Int),
      ((left + side : Nat) : Int), ((upper + side : Nat) : Int))
  else Except.ok img1

/-- `utils.image_to_brick_matrix`, with Pillow's `Image.resize` abstracted
as the parameter `resize` (arguments: source image, target width, target
height, filter). The code always calls it with `Image.LANCZOS`. -/
def image_to_brick_matrix
    (resize : PILImage → Nat → Nat → ResampleFilter → PILImage)
    (img : PILImage) (bricks : Nat)
    (crop_box : Option (Int × Int × Int × Int)) : Except String Grid :=
  match (match crop_box with
         | some box => PILImage.crop img box
         | none => Except.ok img) with
  | .error e => .error e
  | .ok img1 =>
    match squareStep img1 with
    | .error e => .error e
    | .ok img2 =>
      .ok (pil_to_np (resize img2 bricks bricks ResampleFilter.lanczos))

/-- `utils.rgb_palette_to_lab`: cast the palette to `uint8`
(`np.array(palette_rgb, dtype=np.uint8)`), then convert to LAB. -/
def rgb_palette_to_lab (lab : RGB → Lab) (palette_rgb : List RGB) : List Lab :=
  palette_rgb.map fun p => lab (byteClamp p)

/-- One row of the `(N, P)` distance matrix of `map_to_palette`: the LAB
distances from one grid cell to every palette entry. -/
def cellDistances (lab : RGB → Lab) (palette_rgb : List RGB) (c : RGB) : List ℚ :=
  (rgb_palette_to_lab lab palette_rgb).map fun pl => dist2 (lab c) pl

/-- `idx` for one cell, `np.argmin` over its distance row (the `getD 0`
default is never reached on the success path, where the palette is
nonempty). -/
def nearestIdxD (lab : RGB → Lab) (palette_rgb : List RGB) (c : RGB) : Nat :=
  (argminIdx (cellDistances lab palette_rgb c)).getD 0

/-- The quantized grid `mapped`:
`np.array(palette_rgb, dtype=np.uint8)[idx]` reshaped to `(h, w, 3)`. -/
def mappedGrid (lab : RGB → Lab) (palette_rgb : List RGB) (matrix : Grid) : Grid :=
  ⟨matrix.h, matrix.w, fun y x =>
    byteClamp (palette_rgb.getD (nearestIdxD lab palette_rgb (matrix.pix y x)) (0, 0, 0))⟩

/-- Number of grid cells whose `idx` equals `i`
(`counts[unique.tolist().index(i)] if i in unique else 0`). -/
def cellCount (lab : RGB → Lab) (palette_rgb : List RGB) (matrix : Grid) (i : Nat) : Nat :=
  Finset.sum (Finset.range matrix.h) fun y =>
    Finset.sum (Finset.range matrix.w) fun x =>
      if nearestIdxD lab palette_rgb (matrix.pix y x) = i then 1 else 0

/-- The `for i, p in enumerate(palette_metadata)` loop building
`counts_list`, with `n` the running index. -/
def countsFrom (cellCnt : Nat → Nat) (n : Nat) : List PaletteEntryMeta → List UsageCount
  | [] => []
  | p :: ps => ⟨n, p.code, p.name, p.rgb, cellCnt n⟩ :: countsFrom cellCnt (n + 1) ps

/-- `utils.map_to_palette`. `meta` is the list `get_palette_metadata()`
returns (the rows of the process-wide CSV palette — data external to the
source tree, passed explicitly). The error branch models the `ValueError`
numpy raises when `np.argmin(distances, axis=1)` reduces an empty axis,
which happens exactly when the palette is empty and the grid has at least
one cell; it fires before any result is built. -/
def map_to_palette (lab : RGB → Lab) (meta : List PaletteEntryMeta)
    (matrix : Grid) (palette_rgb : List RGB) :
    Except String (Grid × List UsageCount) :=
  if matrix.h * matrix.w ≠ 0 ∧ palette_rgb = [] then
    .error "attempt to get argmin of an empty sequence"
  else
    .ok (mappedGrid lab palette_rgb matrix,
         countsFrom (cellCount lab palette_rgb matrix) 0 meta)

/-- `utils.expand_mosaic`:
`np.repeat(np.repeat(mapped, cell_size, axis=0), cell_size, axis=1)`
converted back to a PIL image. -/
def expand_mosaic (mapped : Grid) (cell_size : Nat) : PILImage :=
  np_to_pil ⟨mapped.h * cell_size, mapped.w * cell_size,
    fun y x => mapped.pix (y / cell_size) (x / cell_size)⟩

/-- The reverse-lookup dictionary of `main.convert`:
`palette_map = {tuple(rgb): idx for idx, rgb in enumerate(palette_rgb)}`.
A Python dict comprehension keeps the last binding for a repeated key, so
lookup scans the enumerated palette from the end. -/
def palette_map (palette_rgb : List RGB) (c : RGB) : Option Nat :=
  (palette_rgb.enum.reverse.find? fun ip => decide (ip.2 = c)).map fun ip => ip.1

/-- `true` on `Except.ok`, `false` on `Except.error`. -/
def exceptIsOk {ε α : Type} : Except ε α → Bool
  | .ok _ => true
  | .error _ => false

theorem cellDistances_length (lab : RGB → Lab) (pal : List RGB) (c : RGB) :
    (cellDistances lab pal c).length = pal.length := by
  simp [cellDistances, rgb_palette_to_lab]

theorem cellDistances_get (lab : RGB → Lab) (pal : List RGB) (c : RGB)
    (k : Nat) (hk : k < pal.length)
    (hk' : k < (cellDistances lab pal c).length) :
    (cellDistances lab pal c).get ⟨k, hk'⟩ =
      dist2 (lab c) (lab (byteClamp (pal.get ⟨k, hk⟩))) := by
  simp [cellDistances, rgb_palette_to_lab, List.get_map]

theorem map_to_palette_ok_elim {lab : RGB → Lab} {meta : List PaletteEntryMeta}
    {matrix : Grid} {pal : List RGB} {g : Grid} {c : List UsageCount}
    (hok : map_to_palette lab meta matrix pal = .ok (g, c)) :
    (matrix.h * matrix.w = 0 ∨ pal ≠ []) ∧
      g = mappedGrid lab pal matrix ∧
      c = countsFrom (cellCount lab pal matrix) 0 meta := by
  unfold map_to_palette at hok
  by_cases hcond : matrix.h * matrix.w ≠ 0 ∧ pal = []
  · rw [if_pos hcond] at hok
    exact absurd hok (by simp)
  · rw [if_neg hcond] at hok
    have hp : matrix.h * matrix.w = 0 ∨ pal ≠ [] := by
      by_cases h1 : matrix.h * matrix.w = 0
      · exact Or.inl h1
      · right
        intro hp
        exact hcond ⟨h1, hp⟩
    injection hok with hok
    injection hok with h1 h2
    exact ⟨hp, h1.symm, h2.symm⟩

/-- `np.argmin` row specification: on a nonempty palette, the selected index
is in range, attains the minimal LAB distance, and is strictly better than
every earlier index (first-occurrence tie-break). -/
theorem nearestIdxD_spec (lab : RGB → Lab) (pal : List RGB) (c : RGB)
    (hpal : pal ≠ []) :
    ∃ hj : nearestIdxD lab pal c < pal.length,
      (∀ k (hk : k < pal.length),
        dist2 (lab c) (lab (byteClamp (pal.get ⟨nearestIdxD lab pal c, hj⟩))) ≤
          dist2 (lab c) (lab (byteClamp (pal.get ⟨k, hk⟩)))) ∧
      (∀ k (hk : k < pal.length), k < nearestIdxD lab pal c →
        dist2 (lab c) (lab (byteClamp (pal.get ⟨nearestIdxD lab pal c, hj⟩))) <
          dist2 (lab c) (lab (byteClamp (pal.get ⟨k, hk⟩)))) := by
  have hlen : (cellDistances lab pal c).length = pal.length :=
    cellDistances_length lab pal c
  have hne : cellDistances lab pal c ≠ [] := by
    intro h
    rw [h] at hlen
    exact hpal (List.eq_nil_of_length_eq_zero hlen.symm)
  obtain ⟨m, hm⟩ := Option.isSome_iff_exists.mp (listMin_isSome hne)
  have hj_eq : nearestIdxD lab pal c = idxOfQ m (cellDistances lab pal c) := by
    unfold nearestIdxD argminIdx
    rw [hm]
    rfl
  have hmem : m ∈ cellDistances lab pal c := listMin_mem hm
  have hjlt : idxOfQ m (cellDistances lab pal c) < (cellDistances lab pal c).length :=
    idxOfQ_lt_length hmem
  have hjlt' : nearestIdxD lab pal c < pal.length := by
    rw [hj_eq, ← hlen]; exact hjlt
  have hjlt2 : nearestIdxD lab pal c < (cellDistances lab pal c).length := by
    rw [hlen]; exact hjlt'
  have hget : (cellDistances lab pal c).get ⟨nearestIdxD lab pal c, hjlt2⟩ = m := by
    have he : (⟨nearestIdxD lab pal c, hjlt2⟩ : Fin (cellDistances lab pal c).length) =
        ⟨idxOfQ m (cellDistances lab pal c), hjlt⟩ := Fin.ext hj_eq
    rw [he]
    exact get_idxOfQ hmem hjlt
  have hgetd :
      dist2 (lab c) (lab (byteClamp (pal.get ⟨nearestIdxD lab pal c, hjlt'⟩))) = m := by
    rw [← cellDistances_get lab pal c _ hjlt' hjlt2]
    exact hget
  refine ⟨hjlt', ?_, ?_⟩
  · intro k hk
    have hk' : k < (cellDistances lab pal c).length := by rw [hlen]; exact hk
    have h2 := listMin_le hm ((cellDistances lab pal c).get ⟨k, hk'⟩)
      (List.get_mem _ _ _)
    rw [cellDistances_get lab pal c k hk hk'] at h2
    rw [hgetd]
    exact h2
  · intro k hk hklt
    have hk' : k < (cellDistances lab pal c).length := by rw [hlen]; exact hk
    have hne' : (cellDistances lab pal c).get ⟨k, hk'⟩ ≠ m := by
      apply get_lt_idxOfQ_ne
      rw [← hj_eq]; exact hklt
    have h2 := listMin_le hm ((cellDistances lab pal c).get ⟨k, hk'⟩)
      (List.get_mem _ _ _)
    have h3 : m < (cellDistances lab pal c).get ⟨k, hk'⟩ :=
      lt_of_le_of_ne h2 (Ne.symm hne')
    rw [cellDistances_get lab pal c k hk hk'] at h3
    rw [hgetd]
    exact h3

theorem mappedGrid_pix (lab : RGB → Lab) (pal : List RGB) (matrix : Grid)
    (y x : Nat) (hpal : pal ≠ []) :
    ∃ hj : nearestIdxD lab pal (matrix.pix y x) < pal.length,
      (mappedGrid lab pal matrix).pix y x =
        byteClamp (pal.get ⟨nearestIdxD lab pal (matrix.pix y x), hj⟩) := by
  obtain ⟨hj, -, -⟩ := nearestIdxD_spec lab pal (matrix.pix y x) hpal
  refine ⟨hj, ?_⟩
  simp only [mappedGrid]
  rw [List.getD_eq_get _ _ hj]

theorem countsFrom_length (f : Nat → Nat) :
    ∀ (l : List PaletteEntryMeta) (n : Nat), (countsFrom f n l).length = l.length := by
  intro l
  induction l with
  | nil => intro n; rfl
  | cons p ps ih => intro n; simp [countsFrom, ih (n + 1)]

theorem countsFrom_get (f : Nat → Nat) :
    ∀ (l : List PaletteEntryMeta) (n i : Nat) (hi : i < l.length)
      (hi' : i < (countsFrom f n l).length),
      (countsFrom f n l).get ⟨i, hi'⟩ =
        ⟨n + i, (l.get ⟨i, hi⟩).code, (l.get ⟨i, hi⟩).name,
          (l.get ⟨i, hi⟩).rgb, f (n + i)⟩ := by
  intro l
  induction l with
  | nil => intro n i hi hi'; exact absurd hi (Nat.not_lt_zero i)
  | cons p ps ih =>
    intro n i hi hi'
    cases i with
    | zero => simp [countsFrom]
    | succ i' =>
      have hi2 : i' < ps.length := Nat.lt_of_succ_lt_succ hi
      have hi2' : i' < (countsFrom f (n + 1) ps).length := by
        rw [countsFrom_length]; exact hi2
      have hstep : (countsFrom f n (p :: ps)).get ⟨i' + 1, hi'⟩ =
          (countsFrom f (n + 1) ps).get ⟨i', hi2'⟩ := by
        simp [countsFrom]
      rw [hstep, ih (n + 1) i' hi2 hi2']
      have hadd : n + 1 + i' = n + (i' + 1) := by omega
      simp [hadd]

theorem countsFrom_sum (f : Nat → Nat) :
    ∀ (l : List PaletteEntryMeta) (n : Nat),
      ((countsFrom f n l).map fun u => u.count).sum =
        Finset.sum (Finset.range l.length) fun i => f (n + i) := by
  intro l
  induction l with
  | nil => intro n; simp [countsFrom]
  | cons p ps ih =>
    intro n
    simp only [countsFrom, List.map_cons, List.sum_cons, List.length_cons]
    rw [ih (n + 1), Finset.sum_range_succ']
    have hadd : ∀ i, f (n + 1 + i) = f (n + (i + 1)) := by
      intro i; congr 1; omega
    rw [Finset.sum_congr rfl fun i _ => hadd i]
    simp [Nat.add_comm]

theorem countsFrom_map_meta (f f' : Nat → Nat) :
    ∀ (l : List PaletteEntryMeta) (n : Nat),
      ((countsFrom f n l).map fun u => (u.index, u.code, u.name, u.rgb)) =
        ((countsFrom f' n l).map fun u => (u.index, u.code, u.name, u.rgb)) := by
  intro l
  induction l with
  | nil => intro n; rfl
  | cons p ps ih => intro n; simp [countsFrom, ih (n + 1)]

theorem pal_ne_nil_of_ok {lab : RGB → Lab} {meta : List PaletteEntryMeta}
    {matrix : Grid} {pal : List RGB} {g : Grid} {c : List UsageCount} {y x : Nat}
    (hok : map_to_palette lab meta matrix pal = .ok (g, c))
    (hy : y < matrix.h) (hx : x < matrix.w) : pal ≠ [] := by
  obtain ⟨hp, -, -⟩ := map_to_palette_ok_elim hok
  rcases hp with h0 | h
  · exfalso
    rcases Nat.mul_eq_zero.mp h0 with h0 | h0 <;> omega
  · exact h

/-- C1 (amended). `map_to_palette` tallies its usage counts over the rows of
the process-wide CSV metadata, so the counts of a successful call sum to
`N×N` (every cell counted exactly once, into exactly one bucket) provided
the supplied palette has at most as many entries as the CSV metadata — in
particular whenever the supplied palette is the CSV palette itself, as in
every caller.  Without that precondition the sum can fall short (see the
counterexample). -/
theorem map_to_palette_count_sum (lab : RGB → Lab) (meta : List PaletteEntryMeta)
    (matrix : Grid) (pal : List RGB) (g : Grid) (c : List UsageCount)
    (hok : map_to_palette lab meta matrix pal = .ok (g, c))
    (hlen : pal.length ≤ meta.length) :
    (c.map fun u => u.count).sum = matrix.h * matrix.w := by
  obtain ⟨hp, -, hc⟩ := map_to_palette_ok_elim hok
  subst hc
  rw [countsFrom_sum]
  simp only [Nat.zero_add]
  rcases hp with hzero | hpal
  · have hall : ∀ i, cellCount lab pal matrix i = 0 := by
      intro i
      unfold cellCount
      rcases Nat.mul_eq_zero.mp hzero with h0 | h0 <;> simp [h0]
    rw [Finset.sum_congr rfl fun i _ => hall i]
    simp [hzero]
  · have key : ∀ y x, (Finset.sum (Finset.range meta.length)
        fun i => if nearestIdxD lab pal (matrix.pix y x) = i then 1 else 0) = 1 := by
      intro y x
      obtain ⟨hj, -, -⟩ := nearestIdxD_spec lab pal (matrix.pix y x) hpal
      rw [Finset.sum_ite_eq]
      have : nearestIdxD lab pal (matrix.pix y x) ∈ Finset.range meta.length := by
        rw [Finset.mem_range]; omega
      rw [if_pos this]
    unfold cellCount
    rw [Finset.sum_comm]
    rw [Finset.sum_congr rfl fun y _ => Finset.sum_comm]
    rw [Finset.sum_congr rfl fun y _ => Finset.sum_congr rfl fun x _ => key y x]
    simp [Finset.sum_const, Finset.card_range]

/-- C2. Every cell of the quantized grid returned by a successful
`map_to_palette` call is byte-for-byte equal to some entry of the supplied
palette (whose entries are bytes, as the data model requires): the cell is
`np.array(palette_rgb, dtype=np.uint8)[idx]` with `idx` in range. -/
theorem map_to_palette_exact_membership (lab : RGB → Lab)
    (meta : List PaletteEntryMeta) (matrix : Grid) (pal : List RGB)
    (g : Grid) (c : List UsageCount) (y x : Nat)
    (hok : map_to_palette lab meta matrix pal = .ok (g, c))
    (hbyte : ∀ p ∈ pal, isByteRGB p)
    (hy : y < matrix.h) (hx : x < matrix.w) :
    ∃ i, ∃ hi : i < pal.length, g.pix y x = pal.get ⟨i, hi⟩ := by
  obtain ⟨-, hg, -⟩ := map_to_palette_ok_elim hok
  have hpal : pal ≠ [] := pal_ne_nil_of_ok hok hy hx
  obtain ⟨hj, hpix⟩ := mappedGrid_pix lab pal matrix y x hpal
  refine ⟨_, hj, ?_⟩
  rw [hg, hpix, byteClamp_eq_self (hbyte _ (List.get_mem _ _ _))]

/-- C3. Each cell of a successful `map_to_palette` call is mapped to a
palette entry of minimal LAB distance; exact ties go to the lowest palette
index (`np.argmin` first occurrence); and a cell whose raw RGB equals the
RGB of a palette entry whose LAB color differs from every other entry's is
mapped to exactly that entry. -/
theorem map_to_palette_nearest (lab : RGB → Lab) (meta : List PaletteEntryMeta)
    (matrix : Grid) (pal : List RGB) (g : Grid) (c : List UsageCount) (y x : Nat)
    (hok : map_to_palette lab meta matrix pal = .ok (g, c))
    (hy : y < matrix.h) (hx : x < matrix.w) :
    ∃ j, ∃ hj : j < pal.length,
      g.pix y x = byteClamp (pal.get ⟨j, hj⟩) ∧
      (∀ k (hk : k < pal.length),
        dist2 (lab (matrix.pix y x)) (lab (byteClamp (pal.get ⟨j, hj⟩))) ≤
          dist2 (lab (matrix.pix y x)) (lab (byteClamp (pal.get ⟨k, hk⟩)))) ∧
      (∀ k (hk : k < pal.length), k < j →
        dist2 (lab (matrix.pix y x)) (lab (byteClamp (pal.get ⟨j, hj⟩))) <
          dist2 (lab (matrix.pix y x)) (lab (byteClamp (pal.get ⟨k, hk⟩)))) ∧
      (∀ i (hi : i < pal.length),
        isByteRGB (pal.get ⟨i, hi⟩) →
        matrix.pix y x = pal.get ⟨i, hi⟩ →
        (∀ k (hk : k < pal.length), k ≠ i →
          lab (byteClamp (pal.get ⟨k, hk⟩)) ≠ lab (byteClamp (pal.get ⟨i, hi⟩))) →
        j = i) := by
  obtain ⟨-, hg, -⟩ := map_to_palette_ok_elim hok
  have hpal : pal ≠ [] := pal_ne_nil_of_ok hok hy hx
  obtain ⟨hj, hmin, htie⟩ := nearestIdxD_spec lab pal (matrix.pix y x) hpal
  obtain ⟨hj', hpix⟩ := mappedGrid_pix lab pal matrix y x hpal
  refine ⟨nearestIdxD lab pal (matrix.pix y x), hj, ?_, hmin, htie, ?_⟩
  · rw [hg, hpix]
  · intro i hi hbi heq hdist
    by_contra hne
    have hclamp : byteClamp (pal.get ⟨i, hi⟩) = pal.get ⟨i, hi⟩ := byteClamp_eq_self hbi
    have hdi : dist2 (lab (matrix.pix y x)) (lab (byteClamp (pal.get ⟨i, hi⟩))) = 0 := by
      rw [hclamp, ← heq]
      exact dist2_self _
    have hle := hmin i hi
    rw [hdi] at hle
    have hge := dist2_nonneg (lab (matrix.pix y x))
      (lab (byteClamp (pal.get ⟨nearestIdxD lab pal (matrix.pix y x), hj⟩)))
    have hdj : dist2 (lab (matrix.pix y x))
        (lab (byteClamp (pal.get ⟨nearestIdxD lab pal (matrix.pix y x), hj⟩))) = 0 :=
      le_antisymm hle hge
    have hlabeq := dist2_eq_zero hdj
    have := hdist (nearestIdxD lab pal (matrix.pix y x)) hj hne
    apply this
    rw [hclamp, ← heq]
    exact hlabeq.symm

/-- C5. Calling the palette mapper on a nonempty grid with an empty palette
aborts with an error (the `ValueError` numpy raises inside `np.argmin` on an
empty reduction axis) and produces no `(grid, counts)` result. -/
theorem map_to_palette_empty_palette (lab : RGB → Lab)
    (meta : List PaletteEntryMeta) (matrix : Grid)
    (hcells : matrix.h * matrix.w ≠ 0) :
    map_to_palette lab meta matrix [] =
      .error "attempt to get argmin of an empty sequence" := by
  unfold map_to_palette
  rw [if_pos ⟨hcells, rfl⟩]

/-- C8. A successful `map_to_palette` call emits exactly one usage-count
record per palette entry of the palette provider (the CSV metadata rows,
which carry the code and name — see C10), in palette order, the `i`-th
record carrying index `i` and that entry's code, name and RGB, with its
count (possibly 0) equal to the number of cells mapped to index `i`. -/
theorem map_to_palette_counts_records (lab : RGB → Lab)
    (meta : List PaletteEntryMeta) (matrix : Grid) (pal : List RGB)
    (g : Grid) (c : List UsageCount)
    (hok : map_to_palette lab meta matrix pal = .ok (g, c)) :
    c.length = meta.length ∧
    ∀ i (hi : i < meta.length) (hi' : i < c.length),
      c.get ⟨i, hi'⟩ = ⟨i, (meta.get ⟨i, hi⟩).code, (meta.get ⟨i, hi⟩).name,
        (meta.get ⟨i, hi⟩).rgb, cellCount lab pal matrix i⟩ := by
  obtain ⟨-, -, hc⟩ := map_to_palette_ok_elim hok
  subst hc
  refine ⟨countsFrom_length _ meta 0, ?_⟩
  intro i hi hi'
  have := countsFrom_get (cellCount lab pal matrix) meta 0 i hi hi'
  simpa using this

/-- C10. The usage-count records of `map_to_palette` are built from the
process-wide CSV metadata (`get_palette_metadata`), not from the
`palette_rgb` argument: two calls on the same grid with different palettes
produce records with identical index/code/name/rgb fields, one per CSV row
in CSV order; only the counts depend on the palette used for mapping, so
the records describe that palette exactly when `palette_rgb` matches the
CSV palette entry-for-entry. -/
theorem map_to_palette_counts_meta_only (lab : RGB → Lab)
    (meta : List PaletteEntryMeta) (matrix : Grid) (pal₁ pal₂ : List RGB)
    (g₁ g₂ : Grid) (c₁ c₂ : List UsageCount)
    (hok₁ : map_to_palette lab meta matrix pal₁ = .ok (g₁, c₁))
    (hok₂ : map_to_palette lab meta matrix pal₂ = .ok (g₂, c₂)) :
    c₁.length = meta.length ∧
    ((c₁.map fun u => (u.index, u.code, u.name, u.rgb)) =
      (c₂.map fun u => (u.index, u.code, u.name, u.rgb))) ∧
    ∀ i (hi : i < meta.length) (hi' : i < c₁.length),
      (c₁.get ⟨i, hi'⟩).index = i ∧
      (c₁.get ⟨i, hi'⟩).code = (meta.get ⟨i, hi⟩).code ∧
      (c₁.get ⟨i, hi'⟩).name = (meta.get ⟨i, hi⟩).name ∧
      (c₁.get ⟨i, hi'⟩).rgb = (meta.get ⟨i, hi⟩).rgb ∧
      (c₁.get ⟨i, hi'⟩).count = cellCount lab pal₁ matrix i := by
  obtain ⟨-, -, hc₁⟩ := map_to_palette_ok_elim hok₁
  obtain ⟨-, -, hc₂⟩ := map_to_palette_ok_elim hok₂
  subst hc₁
  subst hc₂
  refine ⟨countsFrom_length _ meta 0, countsFrom_map_meta _ _ meta 0, ?_⟩
  intro i hi hi'
  have := countsFrom_get (cellCount lab pal₁ matrix) meta 0 i hi hi'
  rw [this]
  simp

/-- C9. Index recovery in the `/convert` endpoint: for every cell of a
quantized grid returned by `map_to_palette`, the reverse-lookup dictionary
built over the same (byte-valued) palette finds a key equal to the cell, so
the `KeyError` branch (`PaletteIndexMismatch`) is unreachable. -/
theorem convert_index_recovery (lab : RGB → Lab) (meta : List PaletteEntryMeta)
    (matrix : Grid) (pal : List RGB) (g : Grid) (c : List UsageCount) (y x : Nat)
    (hok : map_to_palette lab meta matrix pal = .ok (g, c))
    (hbyte : ∀ p ∈ pal, isByteRGB p)
    (hy : y < matrix.h) (hx : x < matrix.w) :
    (palette_map pal (g.pix y x)).isSome = true := by
  obtain ⟨-, hg, -⟩ := map_to_palette_ok_elim hok
  have hpal : pal ≠ [] := pal_ne_nil_of_ok hok hy hx
  obtain ⟨hj, hpix⟩ := mappedGrid_pix lab pal matrix y x hpal
  have hmem : g.pix y x ∈ pal := by
    rw [hg, hpix, byteClamp_eq_self (hbyte _ (List.get_mem _ _ _))]
    exact List.get_mem _ _ _
  obtain ⟨⟨n, hn⟩, hget⟩ := List.mem_iff_get.mp hmem
  unfold palette_map
  have hfind : (pal.enum.reverse.find? fun ip => decide (ip.2 = g.pix y x)).isSome := by
    rw [List.find?_isSome]
    have hn' : n < pal.enum.length := by rw [List.enum_length]; exact hn
    refine ⟨pal.enum.get ⟨n, hn'⟩, ?_, ?_⟩
    · rw [List.mem_reverse]
      exact List.get_mem _ _ _
    · have henum : pal.enum.get ⟨n, hn'⟩ = (n, pal.get ⟨n, hn⟩) := by
        simp [List.get_eq_getElem, List.getElem_enum]
      rw [henum]
      simpa using hget
  obtain ⟨ip, hip⟩ := Option.isSome_iff_exists.mp hfind
  rw [hip]
  rfl

/-- C7. For an `N×N` quantized (byte-valued) grid and positive cell size
`k`, `expand_mosaic` yields an image of exactly `(N*k) × (N*k)` pixels in
which each `k×k` block is the solid color of the corresponding grid cell
(pure block replication by `np.repeat`, no blending). -/
theorem expand_mosaic_spec (g : Grid) (k n : Nat)
    (hh : g.h = n) (hw : g.w = n) (hk : 0 < k) :
    (expand_mosaic g k).width = n * k ∧
    (expand_mosaic g k).height = n * k ∧
    ∀ i j dy dx : Nat, i < n → j < n → dy < k → dx < k →
      isByteRGB (g.pix i j) →
      (expand_mosaic g k).pix (↑(j * k + dx)) (↑(i * k + dy)) = g.pix i j := by
  refine ⟨?_, ?_, ?_⟩
  · simp [expand_mosaic, np_to_pil, hw]
  · simp [expand_mosaic, np_to_pil, hh]
  · intro i j dy dx hi hj hdy hdx hbyte
    have hdiv : ∀ a d : Nat, d < k → (a * k + d) / k = a := by
      intro a d hd
      rw [Nat.add_comm, Nat.add_mul_div_right _ _ hk, Nat.div_eq_of_lt hd]
      omega
    simp only [expand_mosaic, np_to_pil, Int.toNat_natCast]
    rw [hdiv i dy hdy, hdiv j dx hdx]
    exact byteClamp_eq_self hbyte

/-- C6. With no caller crop box and a non-square source, the sampler
center-crops to a square of side `min(W,H)` at left offset `(W−side)//2`
and top offset `(H−side)//2` (Nat floor division), then hands exactly that
square to Pillow's resampler with target `bricks × bricks` and the
`Image.LANCZOS` anti-aliased filter. -/
theorem image_to_brick_matrix_center_crop
    (resize : PILImage → Nat → Nat → ResampleFilter → PILImage)
    (img : PILImage) (bricks : Nat)
    (hne : img.width ≠ img.height) :
    ∃ sq : PILImage,
      image_to_brick_matrix resize img bricks none =
        .ok (pil_to_np (resize sq bricks bricks ResampleFilter.lanczos)) ∧
      sq.width = min img.width img.height ∧
      sq.height = min img.width img.height ∧
      ∀ x y : Nat, x < min img.width img.height → y < min img.width img.height →
        sq.pix (↑x) (↑y) =
          img.pix (↑x + ↑((img.width - min img.width img.height) / 2))
                  (↑y + ↑((img.height - min img.width img.height) / 2)) := by
  have hsw : min img.width img.height ≤ img.width := min_le_left _ _
  have hsh : min img.width img.height ≤ img.height := min_le_right _ _
  refine ⟨cropRaw img
      (↑((img.width - min img.width img.height) / 2))
      (↑((img.height - min img.width img.height) / 2))
      (↑((img.width - min img.width img.height) / 2 + min img.width img.height))
      (↑((img.height - min img.width img.height) / 2 + min img.width img.height)),
    ?_, ?_, ?_, ?_⟩
  · have hsq : squareStep img = .ok (cropRaw img
        (↑((img.width - min img.width img.height) / 2))
        (↑((img.height - min img.width img.height) / 2))
        (↑((img.width - min img.width img.height) / 2 + min img.width img.height))
        (↑((img.height - min img.width img.height) / 2 + min img.width img.height))) := by
      unfold squareStep
      rw [if_pos hne]
      simp only [PILImage.crop]
      rw [if_neg (by omega), if_neg (by omega)]
    have hred : image_to_brick_matrix resize img bricks none =
        (match squareStep img with
         | .error e => .error e
         | .ok img2 =>
           .ok (pil_to_np (resize img2 bricks bricks ResampleFilter.lanczos))) := rfl
    rw [hred, hsq]
  · simp only [cropRaw]
    omega
  · simp only [cropRaw]
    omega
  · intro x y hx hy
    simp only [cropRaw]
    rw [if_pos (by omega)]

/-- The square-normalization step never fails: its internal crop box is
always normalized.  A zero-width input stays zero-width. -/
theorem squareStep_isOk (img1 : PILImage) :
    ∃ sq : PILImage, squareStep img1 = .ok sq ∧ (img1.width = 0 → sq.width = 0) := by
  by_cases hne : img1.width ≠ img1.height
  · have hsw : min img1.width img1.height ≤ img1.width := min_le_left _ _
    have hok : squareStep img1 = .ok (cropRaw img1
        (↑((img1.width - min img1.width img1.height) / 2))
        (↑((img1.height - min img1.width img1.height) / 2))
        (↑((img1.width - min img1.width img1.height) / 2 + min img1.width img1.height))
        (↑((img1.height - min img1.width img1.height) / 2 + min img1.width img1.height))) := by
      unfold squareStep
      rw [if_pos hne]
      simp only [PILImage.crop]
      rw [if_neg (by omega), if_neg (by omega)]
    refine ⟨_, hok, ?_⟩
    intro h0
    simp only [cropRaw]
    omega
  · refine ⟨img1, ?_, fun h0 => h0⟩
    unfold squareStep
    rw [if_neg hne]

/-- C4 (amended). The sampler performs no crop validation of its own: the
caller's box goes straight to Pillow's `Image.crop`, which rejects only
`right < left` or `bottom < top` (a Pillow `ValueError`, not an
`InvalidCropRegion`).  A degenerate box with `left == right` is accepted:
the pipeline continues on a zero-width intermediate image and hands it to
the resampler; out-of-bounds boxes are likewise accepted (zero-padded).
No `InvalidCropRegion` error exists anywhere in the code. -/
theorem image_to_brick_matrix_no_crop_validation
    (resize : PILImage → Nat → Nat → ResampleFilter → PILImage)
    (img : PILImage) (bricks : Nat) (l u r b : Int) :
    ((l ≤ r ∧ u ≤ b) →
      ∃ sq : PILImage,
        image_to_brick_matrix resize img bricks (some (l, u, r, b)) =
          .ok (pil_to_np (resize sq bricks bricks ResampleFilter.lanczos)) ∧
        (l = r → sq.width = 0)) ∧
    ((r < l ∨ b < u) →
      ∃ msg : String,
        image_to_brick_matrix resize img bricks (some (l, u, r, b)) = .error msg) := by
  have hred : image_to_brick_matrix resize img bricks (some (l, u, r, b)) =
      (match PILImage.crop img (l, u, r, b) with
       | .error e => Except.error e
       | .ok img1 =>
         match squareStep img1 with
         | .error e => Except.error e
         | .ok img2 =>
           Except.ok (pil_to_np (resize img2 bricks bricks ResampleFilter.lanczos))) := rfl
  constructor
  · rintro ⟨hl, hu⟩
    have hcrop : PILImage.crop img (l, u, r, b) = .ok (cropRaw img l u r b) := by
      simp only [PILImage.crop]
      rw [if_neg (not_lt.mpr hl), if_neg (not_lt.mpr hu)]
    obtain ⟨sq, hsq, hz⟩ := squareStep_isOk (cropRaw img l u r b)
    refine ⟨sq, ?_, ?_⟩
    · rw [hred, hcrop]
      show (match squareStep (cropRaw img l u r b) with
            | .error e => Except.error e
            | .ok img2 =>
              Except.ok (pil_to_np (resize img2 bricks bricks ResampleFilter.lanczos))) =
          Except.ok (pil_to_np (resize sq bricks bricks ResampleFilter.lanczos))
      rw [hsq]
    · intro hlr
      apply hz
      simp only [cropRaw]
      omega
  · intro hbad
    by_cases hrl : r < l
    · refine ⟨"Coordinate right is less than left", ?_⟩
      rw [hred]
      simp only [PILImage.crop]
      rw [if_pos hrl]
    · have hbu : b < u := by
        rcases hbad with h | h
        · exact absurd h hrl
        · exact h
      refine ⟨"Coordinate lower is less than upper", ?_⟩
      rw [hred]
      simp only [PILImage.crop]
      rw [if_neg hrl, if_pos hbu]

/-- A concrete injective stand-in for the abstract LAB conversion, used
only to instantiate closed witnesses (the theorems above hold for every
`lab` function). -/
def labDemo : RGB → Lab := fun c => ((c.1 : ℚ), (c.2.1 : ℚ), (c.2.2 : ℚ))

/-- A concrete stand-in for the abstract Pillow resampler, used only to
instantiate closed witnesses (the theorems above hold for every
resampler). -/
def resizeDemo : PILImage → Nat → Nat → ResampleFilter → PILImage :=
  fun _ w h _ => ⟨w, h, fun _ _ => (0, 0, 0)⟩

/-- A 5×5 uniform source image. -/
def imgDemo : PILImage := ⟨5, 5, fun _ _ => (7, 7, 7)⟩

/-- A non-square (4 wide, 2 tall) source image with distinct pixels. -/
def imgWide : PILImage := ⟨4, 2, fun x y => (x.toNat, y.toNat, 0)⟩

/-- A 1×1 black raw grid. -/
def gridDemo : Grid := ⟨1, 1, fun _ _ => (0, 0, 0)⟩

/-- A 2×2 raw grid: left column exactly red, right column blue-ish. -/
def gridDemo2 : Grid :=
  ⟨2, 2, fun _ x => if x = 0 then (255, 0, 0) else (10, 10, 250)⟩

/-- A two-color demo palette (red, blue). -/
def palDemo : List RGB := [(255, 0, 0), (0, 0, 255)]

/-- A one-color demo palette. -/
def palOne : List RGB := [(10, 20, 30)]

/-- A white/black demo palette, longer than `metaDemo`. -/
def palWhiteBlack : List RGB := [(255, 255, 255), (0, 0, 0)]

/-- One-row demo CSV metadata. -/
def metaDemo : List PaletteEntryMeta := [⟨1, "White", (255, 255, 255)⟩]

/-- Two-row demo CSV metadata matching `palDemo`. -/
def metaDemo2 : List PaletteEntryMeta :=
  [⟨21, "Bright Red", (255, 0, 0)⟩, ⟨23, "Bright Blue", (0, 0, 255)⟩]

/-- C1 counterexample: a supplied palette longer than the CSV metadata
drops cells from the tally.  With one metadata row, the two-entry
white/black palette and a 1×1 black grid, the cell maps to palette index 1,
which has no metadata row, so the returned counts sum to 0, not
`N×N = 1`. -/
theorem map_to_palette_count_sum_cex :
    ((map_to_palette labDemo metaDemo gridDemo palWhiteBlack).toOption.map
      fun res => (((res.2.map fun u => u.count).sum), gridDemo.h * gridDemo.w)) =
      some (0, 1) := by
  have hnear : nearestIdxD labDemo palWhiteBlack ((0, 0, 0) : RGB) = 1 := by
    norm_num [nearestIdxD, argminIdx, cellDistances, rgb_palette_to_lab, palWhiteBlack,
      listMin, idxOfQ, dist2, labDemo, byteClamp]
  have hok : map_to_palette labDemo metaDemo gridDemo palWhiteBlack =
      .ok (mappedGrid labDemo palWhiteBlack gridDemo,
           countsFrom (cellCount labDemo palWhiteBlack gridDemo) 0 metaDemo) := rfl
  have hcell : cellCount labDemo palWhiteBlack gridDemo 0 = 0 := by
    have hpix : gridDemo.pix 0 0 = ((0, 0, 0) : RGB) := rfl
    have hh : gridDemo.h = 1 := rfl
    have hw : gridDemo.w = 1 := rfl
    unfold cellCount
    rw [hh, hw, Finset.sum_range_one, Finset.sum_range_one, hpix, hnear]
    simp
  have hsum : ((countsFrom (cellCount labDemo palWhiteBlack gridDemo) 0 metaDemo).map
      fun u => u.count).sum = 0 := by
    rw [countsFrom_sum]
    have hm : metaDemo.length = 1 := rfl
    rw [hm, Finset.sum_range_one]
    simpa using hcell
  rw [hok]
  simp [Except.toOption, hsum]
  exact ⟨rfl, rfl⟩

/-- C1 witness: the amended count-conservation theorem at a concrete
2×2 grid with a two-entry palette and matching two-row metadata. -/
theorem map_to_palette_count_sum_witness :
    ((countsFrom (cellCount labDemo palDemo gridDemo2) 0 metaDemo2).map
      fun u => u.count).sum = gridDemo2.h * gridDemo2.w :=
  map_to_palette_count_sum labDemo metaDemo2 gridDemo2 palDemo
    (mappedGrid labDemo palDemo gridDemo2)
    (countsFrom (cellCount labDemo palDemo gridDemo2) 0 metaDemo2)
    rfl (by decide)

/-- C2 witness: exact palette membership of a quantized cell at a concrete
input. -/
theorem map_to_palette_exact_membership_witness :
    ∃ i, ∃ hi : i < palDemo.length,
      (mappedGrid labDemo palDemo gridDemo2).pix 0 0 = palDemo.get ⟨i, hi⟩ :=
  map_to_palette_exact_membership labDemo metaDemo2 gridDemo2 palDemo
    (mappedGrid labDemo palDemo gridDemo2)
    (countsFrom (cellCount labDemo palDemo gridDemo2) 0 metaDemo2)
    0 0 rfl (by decide) (by decide) (by decide)

/-- C3 witness: the nearest-entry specification at a concrete input whose
cell (0,0) exactly equals palette entry 0. -/
theorem map_to_palette_nearest_witness :
    ∃ j, ∃ hj : j < palDemo.length,
      (mappedGrid labDemo palDemo gridDemo2).pix 0 0 =
        byteClamp (palDemo.get ⟨j, hj⟩) ∧
      (∀ k (hk : k < palDemo.length),
        dist2 (labDemo (gridDemo2.pix 0 0)) (labDemo (byteClamp (palDemo.get ⟨j, hj⟩))) ≤
          dist2 (labDemo (gridDemo2.pix 0 0)) (labDemo (byteClamp (palDemo.get ⟨k, hk⟩)))) ∧
      (∀ k (hk : k < palDemo.length), k < j →
        dist2 (labDemo (gridDemo2.pix 0 0)) (labDemo (byteClamp (palDemo.get ⟨j, hj⟩))) <
          dist2 (labDemo (gridDemo2.pix 0 0)) (labDemo (byteClamp (palDemo.get ⟨k, hk⟩)))) ∧
      (∀ i (hi : i < palDemo.length),
        isByteRGB (palDemo.get ⟨i, hi⟩) →
        gridDemo2.pix 0 0 = palDemo.get ⟨i, hi⟩ →
        (∀ k (hk : k < palDemo.length), k ≠ i →
          labDemo (byteClamp (palDemo.get ⟨k, hk⟩)) ≠
            labDemo (byteClamp (palDemo.get ⟨i, hi⟩))) →
        j = i) :=
  map_to_palette_nearest labDemo metaDemo2 gridDemo2 palDemo
    (mappedGrid labDemo palDemo gridDemo2)
    (countsFrom (cellCount labDemo palDemo gridDemo2) 0 metaDemo2)
    0 0 rfl (by decide) (by decide)

/-- C4 counterexample: a crop box with `left == right` (3,0,3,5) on a 5×5
image is accepted — the pipeline returns a full 4×4 grid instead of
raising any error, so no `InvalidCropRegion` is raised. -/
theorem image_to_brick_matrix_crop_cex :
    exceptIsOk (image_to_brick_matrix resizeDemo imgDemo 4 (some (3, 0, 3, 5))) = true ∧
    ((image_to_brick_matrix resizeDemo imgDemo 4 (some (3, 0, 3, 5))).toOption.map
      fun g => (g.h, g.w)) = some (4, 4) := by decide

/-- C4 witness: the amended no-validation theorem at the concrete
`left == right` box, exhibiting the zero-width intermediate image. -/
theorem image_to_brick_matrix_no_crop_validation_witness :
    ∃ sq : PILImage,
      image_to_brick_matrix resizeDemo imgDemo 4 (some (3, 0, 3, 5)) =
        .ok (pil_to_np (resizeDemo sq 4 4 ResampleFilter.lanczos)) ∧
      ((3 : Int) = 3 → sq.width = 0) :=
  (image_to_brick_matrix_no_crop_validation resizeDemo imgDemo 4 3 0 3 5).1
    ⟨by decide, by decide⟩

/-- C5 witness: the empty-palette error at a concrete nonempty grid. -/
theorem map_to_palette_empty_palette_witness :
    map_to_palette labDemo metaDemo gridDemo [] =
      .error "attempt to get argmin of an empty sequence" :=
  map_to_palette_empty_palette labDemo metaDemo gridDemo (by decide)

/-- C6 witness: the center-crop theorem at a concrete 4×2 image. -/
theorem image_to_brick_matrix_center_crop_witness :
    ∃ sq : PILImage,
      image_to_brick_matrix resizeDemo imgWide 3 none =
        .ok (pil_to_np (resizeDemo sq 3 3 ResampleFilter.lanczos)) ∧
      sq.width = min imgWide.width imgWide.height ∧
      sq.height = min imgWide.width imgWide.height ∧
      ∀ x y : Nat, x < min imgWide.width imgWide.height →
        y < min imgWide.width imgWide.height →
        sq.pix (↑x) (↑y) =
          imgWide.pix (↑x + ↑((imgWide.width - min imgWide.width imgWide.height) / 2))
                      (↑y + ↑((imgWide.height - min imgWide.width imgWide.height) / 2)) :=
  image_to_brick_matrix_center_crop resizeDemo imgWide 3 (by decide)

/-- C7 witness: the expansion theorem at a concrete 2×2 grid with cell
size 3. -/
theorem expand_mosaic_spec_witness :
    (expand_mosaic gridDemo2 3).width = 2 * 3 ∧
    (expand_mosaic gridDemo2 3).height = 2 * 3 ∧
    ∀ i j dy dx : Nat, i < 2 → j < 2 → dy < 3 → dx < 3 →
      isByteRGB (gridDemo2.pix i j) →
      (expand_mosaic gridDemo2 3).pix (↑(j * 3 + dx)) (↑(i * 3 + dy)) =
        gridDemo2.pix i j :=
  expand_mosaic_spec gridDemo2 3 2 rfl rfl (by decide)

/-- C8 witness: the per-entry record characterization at a concrete
input. -/
theorem map_to_palette_counts_records_witness :
    (countsFrom (cellCount labDemo palDemo gridDemo2) 0 metaDemo2).length =
      metaDemo2.length ∧
    ∀ i (hi : i < metaDemo2.length)
      (hi' : i < (countsFrom (cellCount labDemo palDemo gridDemo2) 0 metaDemo2).length),
      (countsFrom (cellCount labDemo palDemo gridDemo2) 0 metaDemo2).get ⟨i, hi'⟩ =
        ⟨i, (metaDemo2.get ⟨i, hi⟩).code, (metaDemo2.get ⟨i, hi⟩).name,
          (metaDemo2.get ⟨i, hi⟩).rgb, cellCount labDemo palDemo gridDemo2 i⟩ :=
  map_to_palette_counts_records labDemo metaDemo2 gridDemo2 palDemo
    (mappedGrid labDemo palDemo gridDemo2)
    (countsFrom (cellCount labDemo palDemo gridDemo2) 0 metaDemo2) rfl

/-- C9 witness: index recovery succeeds at a concrete quantized cell. -/
theorem convert_index_recovery_witness :
    (palette_map palDemo ((mappedGrid labDemo palDemo gridDemo2).pix 0 0)).isSome = true :=
  convert_index_recovery labDemo metaDemo2 gridDemo2 palDemo
    (mappedGrid labDemo palDemo gridDemo2)
    (countsFrom (cellCount labDemo palDemo gridDemo2) 0 metaDemo2)
    0 0 rfl (by decide) (by decide) (by decide)

/-- C10 witness: two calls with different palettes at a concrete input
yield counts with identical metadata skeletons. -/
theorem map_to_palette_counts_meta_only_witness :
    (countsFrom (cellCount labDemo palDemo gridDemo2) 0 metaDemo2).length =
      metaDemo2.length ∧
    (((countsFrom (cellCount labDemo palDemo gridDemo2) 0 metaDemo2).map
        fun u => (u.index, u.code, u.name, u.rgb)) =
      ((countsFrom (cellCount labDemo palOne gridDemo2) 0 metaDemo2).map
        fun u => (u.index, u.code, u.name, u.rgb))) ∧
    ∀ i (hi : i < metaDemo2.length)
      (hi' : i < (countsFrom (cellCount labDemo palDemo gridDemo2) 0 metaDemo2).length),
      ((countsFrom (cellCount labDemo palDemo gridDemo2) 0 metaDemo2).get ⟨i, hi'⟩).index = i ∧
      ((countsFrom (cellCount labDemo palDemo gridDemo2) 0 metaDemo2).get ⟨i, hi'⟩).code =
        (metaDemo2.get ⟨i, hi⟩).code ∧
      ((countsFrom (cellCount labDemo palDemo gridDemo2) 0 metaDemo2).get ⟨i, hi'⟩).name =
        (metaDemo2.get ⟨i, hi⟩).name ∧
      ((countsFrom (cellCount labDemo palDemo gridDemo2) 0 metaDemo2).get ⟨i, hi'⟩).rgb =
        (metaDemo2.get ⟨i, hi⟩).rgb ∧
      ((countsFrom (cellCount labDemo palDemo gridDemo2) 0 metaDemo2).get ⟨i, hi'⟩).count =
        cellCount labDemo palDemo gridDemo2 i :=
  map_to_palette_counts_meta_only labDemo metaDemo2 gridDemo2 palDemo palOne
    (mappedGrid labDemo palDemo gridDemo2) (mappedGrid labDemo palOne gridDemo2)
    (countsFrom (cellCount labDemo palDemo gridDemo2) 0 metaDemo2)
    (countsFrom (cellCount labDemo palOne gridDemo2) 0 metaDemo2) rfl rfl
